import Mathlib

/-!
Verification of the URL parser in `saba_core/src/url.rs` (repository
`inoUwU/study-saba`).

Rust strings are modelled as `List Char`.  All delimiters used by the parser
(`'/'`, `':'`, `'?'`) and the scheme literal `"http://"` are ASCII, so the
byte-index operations of the Rust code (`str::find` returning a byte index,
slicing `[..i]` / `[i + 1..]` at that index) coincide with the corresponding
character-index operations on this model.

Each Rust helper (`str::contains`, `str::trim_start_matches`, `split`,
`splitn(2, _)`, `find`) is embedded as an executable Lean function, and the
`Url` struct with its methods `new`, `is_http`, `extract_host`,
`extract_port`, `extract_path`, `extract_searchpart`, `parse` is translated
method by method.
-/

namespace StudySaba

/-- Convert a Lean string literal to the char-list model. -/
def str (s : String) : List Char := s.toList

/-- The scheme literal `"http://"`. -/
def httpScheme : List Char := str "http://"

/-- The error message returned by `Url::parse` for a non-HTTP input. -/
def onlyHttpMsg : List Char := str "Only HTTP scheme is supported"

/-- Rust `str::contains(pat)`: `pat` occurs as a contiguous substring of `s`
(at any position, the empty pattern always occurs). -/
def strContains (s pat : List Char) : Bool :=
  match s with
  | [] => pat.isEmpty
  | a :: t => pat.isPrefixOf (a :: t) || strContains t pat

/-- Fuel-indexed worker for `str::trim_start_matches("http://")`; the fuel is
only there to make the recursion structural, `s.length` is always enough. -/
def trimHttpAux : Nat → List Char → List Char
  | 0, s => s
  | n + 1, s => if httpScheme.isPrefixOf s then trimHttpAux n (s.drop 7) else s

/-- Rust `s.trim_start_matches("http://")`: repeatedly removes the leading
occurrence of `"http://"` while the string still starts with it. -/
def trimStartHttp (s : List Char) : List Char :=
  trimHttpAux s.length s

/-- Rust `s.split(c).collect()`: split at every occurrence of `c`; the result
is never empty (splitting the empty string gives `[""]`). -/
def splitChar (c : Char) : List Char → List (List Char)
  | [] => [[]]
  | a :: t =>
    if a = c then [] :: splitChar c t
    else
      match splitChar c t with
      | [] => [[a]]
      | h :: r => (a :: h) :: r

/-- Rust `s.splitn(2, c).collect()`: split at the first occurrence of `c`
only; the result has one or two elements. -/
def splitN2 (c : Char) : List Char → List (List Char)
  | [] => [[]]
  | a :: t =>
    if a = c then [[], t]
    else
      match splitN2 c t with
      | [] => [[a]]
      | h :: r => (a :: h) :: r

/-- Rust `s.find(c)`: index of the first occurrence of `c`, if any. -/
def findChar (c : Char) : List Char → Option Nat
  | [] => none
  | a :: t => if a = c then some 0 else (findChar c t).map (· + 1)

/-- The `Url` struct of `url.rs`: the raw input plus the four extracted
components. -/
structure Url where
  url : List Char
  host : List Char
  port : List Char
  path : List Char
  searchpart : List Char
deriving Repr, DecidableEq

/-- `Url::new`: the unparsed shell — raw string kept, all components empty. -/
def Url.new (url : List Char) : Url :=
  { url := url, host := [], port := [], path := [], searchpart := [] }

/-- `Url::is_http`: true iff the raw string contains `"http://"` anywhere. -/
def Url.is_http (self : Url) : Bool :=
  strContains self.url httpScheme

/-- `Url::extract_host`. -/
def Url.extract_host (self : Url) : List Char :=
  let url_parts := splitChar '/' (trimStartHttp self.url)
  let seg := url_parts.headD []
  match findChar ':' seg with
  | some index => seg.take index
  | none => seg

/-- `Url::extract_port`. -/
def Url.extract_port (self : Url) : List Char :=
  let url_parts := splitN2 '/' (trimStartHttp self.url)
  let seg := url_parts.headD []
  match findChar ':' seg with
  | some index => seg.drop (index + 1)
  | none => str "80"

/-- `Url::extract_path`. -/
def Url.extract_path (self : Url) : List Char :=
  let url_parts := splitN2 '/' (trimStartHttp self.url)
  if url_parts.length < 2 then []
  else
    let path_and_searchpart := splitN2 '?' (url_parts.getD 1 [])
    path_and_searchpart.headD []

/-- `Url::extract_searchpart`. -/
def Url.extract_searchpart (self : Url) : List Char :=
  let url_parts := splitN2 '/' (trimStartHttp self.url)
  if url_parts.length < 2 then []
  else
    let path_and_searchpart := splitN2 '?' (url_parts.getD 1 [])
    if path_and_searchpart.length < 2 then []
    else path_and_searchpart.getD 1 []

/-- `Url::parse`.  The Rust method mutates the receiver and returns
`Result<Self, String>`; we return the pair (receiver post-state, result).
On failure the receiver is returned untouched, exactly as in the source. -/
def Url.parse (self : Url) : Url × Except (List Char) Url :=
  if !self.is_http then (self, Except.error onlyHttpMsg)
  else
    let parsed : Url :=
      { self with
        host := self.extract_host
        port := self.extract_port
        path := self.extract_path
        searchpart := self.extract_searchpart }
    (parsed, Except.ok parsed)

/-!
Checked variants of the extraction methods.  Rust's `url_parts[0]`,
`url_parts[1]`, `&s[..i]` and `&s[i + 1..]` panic when the index is out of
bounds; these variants return `none` exactly where the Rust code would
panic, so `extract_* = some _` states that the method cannot panic.
-/

/-- `Url::extract_host` with every indexing/slicing operation checked. -/
def Url.extract_host? (self : Url) : Option (List Char) :=
  let url_parts := splitChar '/' (trimStartHttp self.url)
  match url_parts[0]? with
  | none => none
  | some seg =>
    match findChar ':' seg with
    | some index => if index ≤ seg.length then some (seg.take index) else none
    | none => some seg

/-- `Url::extract_port` with every indexing/slicing operation checked. -/
def Url.extract_port? (self : Url) : Option (List Char) :=
  let url_parts := splitN2 '/' (trimStartHttp self.url)
  match url_parts[0]? with
  | none => none
  | some seg =>
    match findChar ':' seg with
    | some index =>
      if index + 1 ≤ seg.length then some (seg.drop (index + 1)) else none
    | none => some (str "80")

/-- `Url::extract_path` with every indexing operation checked. -/
def Url.extract_path? (self : Url) : Option (List Char) :=
  let url_parts := splitN2 '/' (trimStartHttp self.url)
  if url_parts.length < 2 then some []
  else
    match url_parts[1]? with
    | none => none
    | some second =>
      match (splitN2 '?' second)[0]? with
      | none => none
      | some p => some p

/-- `Url::extract_searchpart` with every indexing operation checked. -/
def Url.extract_searchpart? (self : Url) : Option (List Char) :=
  let url_parts := splitN2 '/' (trimStartHttp self.url)
  if url_parts.length < 2 then some []
  else
    match url_parts[1]? with
    | none => none
    | some second =>
      let path_and_searchpart := splitN2 '?' second
      if path_and_searchpart.length < 2 then some []
      else
        match path_and_searchpart[1]? with
        | none => none
        | some q => some q

/-- `Url::parse` with every indexing/slicing operation checked. -/
def Url.parse? (self : Url) : Option (Url × Except (List Char) Url) :=
  if !self.is_http then some (self, Except.error onlyHttpMsg)
  else
    match self.extract_host?, self.extract_port?,
          self.extract_path?, self.extract_searchpart? with
    | some h, some po, some pa, some sq =>
      let parsed : Url :=
        { self with host := h, port := po, path := pa, searchpart := sq }
      some (parsed, Except.ok parsed)
    | _, _, _, _ => none

/-!
Spec-side functions, written from the words of the specification (for the
refinement claims comparing the code's extraction with the spec's
description).
-/

/-- Spec wording: strip exactly one leading `"http://"` prefix — a no-op when
`"http://"` does not occur as a true prefix. -/
def stripOnceSpec (s : List Char) : List Char :=
  if httpScheme.isPrefixOf s then s.drop 7 else s

/-- Spec wording for host: everything before the first `'/'`; within that
leading segment, the part before the first `':'` if `':'` is present, else
the whole segment. -/
def hostSpec (stripped : List Char) : List Char :=
  let seg := stripped.takeWhile (· != '/')
  if ':' ∈ seg then seg.takeWhile (· != ':') else seg

/-- Spec wording for port: within the leading segment before the first `'/'`,
the substring after the first `':'` if present, else `"80"`. -/
def portSpec (stripped : List Char) : List Char :=
  let seg := stripped.takeWhile (· != '/')
  if ':' ∈ seg then (seg.dropWhile (· != ':')).drop 1 else str "80"

/-- Spec wording for path: if the stripped string has no `'/'`, empty;
otherwise the remainder after the first `'/'`, cut before the first `'?'`
when one is present. -/
def pathSpec (stripped : List Char) : List Char :=
  if '/' ∈ stripped then
    let rest := (stripped.dropWhile (· != '/')).drop 1
    if '?' ∈ rest then rest.takeWhile (· != '?') else rest
  else []

/-- Spec wording for searchpart: if the stripped string has no `'/'`, empty;
otherwise, in the remainder after the first `'/'`, the substring after the
first `'?'` when one is present, else empty. -/
def searchSpec (stripped : List Char) : List Char :=
  if '/' ∈ stripped then
    let rest := (stripped.dropWhile (· != '/')).drop 1
    if '?' ∈ rest then (rest.dropWhile (· != '?')).drop 1 else []
  else []

/-! Lemmas about the embedded string helpers. -/

theorem splitChar_ne_nil (c : Char) (s : List Char) : splitChar c s ≠ [] := by
  induction s with
  | nil => simp [splitChar]
  | cons a t ih =>
    by_cases h : a = c
    · simp [splitChar, h]
    · cases hs : splitChar c t with
      | nil => simp [splitChar, h, hs]
      | cons x r => simp [splitChar, h, hs]

theorem splitChar_headD (c : Char) (s : List Char) :
    (splitChar c s).headD [] = s.takeWhile (· != c) := by
  induction s with
  | nil => simp [splitChar]
  | cons a t ih =>
    by_cases h : a = c
    · subst h
      simp [splitChar, List.takeWhile_cons]
    · cases hs : splitChar c t with
      | nil => exact absurd hs (splitChar_ne_nil c t)
      | cons x r =>
        rw [hs] at ih
        simp only [List.headD_cons] at ih
        simp [splitChar, h, hs, List.takeWhile_cons, ih]

theorem takeWhile_eq_self_of_not_mem (c : Char) (l : List Char)
    (h : c ∉ l) : l.takeWhile (· != c) = l := by
  induction l with
  | nil => simp
  | cons a t ih =>
    simp only [List.mem_cons, not_or] at h
    have h1 : a ≠ c := fun hac => h.1 hac.symm
    simp [List.takeWhile_cons, h1, ih h.2]

theorem splitN2_eq (c : Char) (s : List Char) :
    splitN2 c s =
      if c ∈ s then [s.takeWhile (· != c), (s.dropWhile (· != c)).drop 1]
      else [s] := by
  induction s with
  | nil => simp [splitN2]
  | cons a t ih =>
    by_cases h : a = c
    · subst h
      simp [splitN2, List.takeWhile_cons, List.dropWhile_cons]
    · have hca : ¬ c = a := fun hc => h hc.symm
      by_cases ht : c ∈ t
      · simp [splitN2, ih, h, hca, ht, List.takeWhile_cons,
          List.dropWhile_cons]
      · simp [splitN2, ih, h, hca, ht, List.takeWhile_cons,
          List.dropWhile_cons]

theorem splitN2_headD (c : Char) (s : List Char) :
    (splitN2 c s).headD [] = s.takeWhile (· != c) := by
  rw [splitN2_eq]
  by_cases hb : c ∈ s
  · simp [hb]
  · simp [hb, takeWhile_eq_self_of_not_mem c s hb]

theorem findChar_none (c : Char) (l : List Char) :
    findChar c l = none ↔ c ∉ l := by
  induction l with
  | nil => simp [findChar]
  | cons a t ih =>
    by_cases h : a = c
    · subst h
      simp [findChar]
    · have hca : ¬ c = a := fun hc => h hc.symm
      simp [findChar, h, hca, ih]

theorem findChar_some (c : Char) (l : List Char) (i : Nat)
    (hf : findChar c l = some i) :
    i < l.length ∧ l.take i = l.takeWhile (· != c)
      ∧ l.drop (i + 1) = (l.dropWhile (· != c)).drop 1 := by
  induction l generalizing i with
  | nil => simp [findChar] at hf
  | cons a t ih =>
    by_cases h : a = c
    · subst h
      simp only [findChar, if_true, eq_self_iff_true, Option.some.injEq] at hf
      subst hf
      simp [List.takeWhile_cons, List.dropWhile_cons]
    · simp only [findChar, if_neg h, Option.map_eq_some'] at hf
      obtain ⟨j, hj, hi⟩ := hf
      subst hi
      obtain ⟨h1, h2, h3⟩ := ih j hj
      refine ⟨by simpa using Nat.succ_lt_succ h1, ?_, ?_⟩
      · simp [List.take_succ_cons, List.takeWhile_cons, h, h2]
      · simp [List.drop_succ_cons, List.dropWhile_cons, h, h3]

theorem hostCore (l : List Char) :
    (match findChar ':' l with
     | some index => l.take index
     | none => l)
      = if ':' ∈ l then l.takeWhile (· != ':') else l := by
  cases hf : findChar ':' l with
  | none =>
    have hb := (findChar_none ':' l).mp hf
    simp [hb]
  | some i =>
    by_cases hb : ':' ∈ l
    · obtain ⟨_, h2, _⟩ := findChar_some ':' l i hf
      simp [hb, h2]
    · have := (findChar_none ':' l).mpr hb
      rw [this] at hf
      exact Option.noConfusion hf

theorem portCore (l : List Char) :
    (match findChar ':' l with
     | some index => l.drop (index + 1)
     | none => str "80")
      = if ':' ∈ l then (l.dropWhile (· != ':')).drop 1
        else str "80" := by
  cases hf : findChar ':' l with
  | none =>
    have hb := (findChar_none ':' l).mp hf
    simp [hb]
  | some i =>
    by_cases hb : ':' ∈ l
    · obtain ⟨_, _, h3⟩ := findChar_some ':' l i hf
      simp [hb, h3]
    · have := (findChar_none ':' l).mpr hb
      rw [this] at hf
      exact Option.noConfusion hf

/-! Lemmas about `trimStartHttp` (Rust `trim_start_matches("http://")`). -/

theorem trimHttpAux_of_not {s : List Char}
    (h : httpScheme.isPrefixOf s = false) : ∀ n, trimHttpAux n s = s := by
  intro n
  cases n <;> simp [trimHttpAux, h]

theorem trimStartHttp_of_not {s : List Char}
    (h : httpScheme.isPrefixOf s = false) : trimStartHttp s = s :=
  trimHttpAux_of_not h _

theorem isPrefixOf_length_le (p s : List Char) (h : p.isPrefixOf s = true) :
    p.length ≤ s.length := by
  induction p generalizing s with
  | nil => simp
  | cons a t ih =>
    cases s with
    | nil => simp [List.isPrefixOf] at h
    | cons b u =>
      simp only [List.isPrefixOf, Bool.and_eq_true] at h
      simpa using ih u h.2

theorem seven_le_of_http_start {s : List Char}
    (h : httpScheme.isPrefixOf s = true) : 7 ≤ s.length := by
  have h2 := isPrefixOf_length_le httpScheme s h
  have h3 : httpScheme.length = 7 := rfl
  omega

theorem trimHttpAux_congr :
    ∀ n m (s : List Char), s.length ≤ n → s.length ≤ m →
      trimHttpAux n s = trimHttpAux m s := by
  intro n
  induction n with
  | zero =>
    intro m s hn _
    have hnil : s = [] := by
      cases s with
      | nil => rfl
      | cons a t => simp at hn
    subst hnil
    have hp : httpScheme.isPrefixOf ([] : List Char) = false := rfl
    rw [trimHttpAux_of_not hp, trimHttpAux_of_not hp]
  | succ n ih =>
    intro m s hn hm
    by_cases hp : httpScheme.isPrefixOf s = true
    · have h7 := seven_le_of_http_start hp
      have hlen : (s.drop 7).length = s.length - 7 := by simp
      cases m with
      | zero => omega
      | succ m =>
        simp only [trimHttpAux, hp, if_true]
        exact ih m (s.drop 7) (by omega) (by omega)
    · have hp2 : httpScheme.isPrefixOf s = false := Bool.eq_false_iff.mpr hp
      rw [trimHttpAux_of_not hp2, trimHttpAux_of_not hp2]

theorem trimStartHttp_of_http_start {s : List Char}
    (hp : httpScheme.isPrefixOf s = true) :
    trimStartHttp s = trimStartHttp (s.drop 7) := by
  have h7 := seven_le_of_http_start hp
  have hlen : (s.drop 7).length = s.length - 7 := by simp
  have hs : s.length = (s.length - 1) + 1 := by omega
  unfold trimStartHttp
  rw [hs]
  simp only [trimHttpAux, hp, if_true]
  exact trimHttpAux_congr (s.length - 1) (s.drop 7).length (s.drop 7)
    (by omega) (le_refl _)

theorem trimStartHttp_not_http_started_aux :
    ∀ n (s : List Char), s.length ≤ n →
      httpScheme.isPrefixOf (trimStartHttp s) = false := by
  intro n
  induction n with
  | zero =>
    intro s hn
    have hnil : s = [] := by
      cases s with
      | nil => rfl
      | cons a t => simp at hn
    subst hnil
    rfl
  | succ n ih =>
    intro s hn
    by_cases hp : httpScheme.isPrefixOf s = true
    · have h7 := seven_le_of_http_start hp
      have hlen : (s.drop 7).length = s.length - 7 := by simp
      rw [trimStartHttp_of_http_start hp]
      exact ih (s.drop 7) (by omega)
    · have hp2 : httpScheme.isPrefixOf s = false := Bool.eq_false_iff.mpr hp
      rw [trimStartHttp_of_not hp2]
      exact hp2

theorem trimStartHttp_not_http_started (s : List Char) :
    httpScheme.isPrefixOf (trimStartHttp s) = false :=
  trimStartHttp_not_http_started_aux s.length s (le_refl _)

/-! The extraction methods, rewritten as functions of the stripped string. -/

theorem extract_host_eq (u : Url) :
    u.extract_host = hostSpec (trimStartHttp u.url) := by
  simp only [Url.extract_host, hostSpec]
  rw [splitChar_headD]
  exact hostCore _

theorem extract_port_eq (u : Url) :
    u.extract_port = portSpec (trimStartHttp u.url) := by
  simp only [Url.extract_port, portSpec]
  rw [splitN2_headD]
  exact portCore _

theorem extract_path_eq (u : Url) :
    u.extract_path = pathSpec (trimStartHttp u.url) := by
  simp only [Url.extract_path, pathSpec, splitN2_eq]
  by_cases hb : '/' ∈ trimStartHttp u.url
  · by_cases hq :
        '?' ∈ ((trimStartHttp u.url).dropWhile (· != '/')).tail
    · simp [hb, hq, splitN2_eq, List.drop_one]
    · simp [hb, hq, splitN2_eq, List.drop_one,
        takeWhile_eq_self_of_not_mem _ _ hq]
  · simp [hb]

theorem extract_searchpart_eq (u : Url) :
    u.extract_searchpart = searchSpec (trimStartHttp u.url) := by
  simp only [Url.extract_searchpart, searchSpec, splitN2_eq]
  by_cases hb : '/' ∈ trimStartHttp u.url
  · by_cases hq :
        '?' ∈ ((trimStartHttp u.url).dropWhile (· != '/')).tail
    · simp [hb, hq, splitN2_eq, List.drop_one]
    · simp [hb, hq, splitN2_eq, List.drop_one]
  · simp [hb]

/-! Structural lemmas about `parse`. -/

theorem parse_of_not_http {u : Url} (h : u.is_http = false) :
    u.parse = (u, Except.error onlyHttpMsg) := by
  simp [Url.parse, h]

theorem parse_of_http {u : Url} (h : u.is_http = true) :
    u.parse =
      ({ u with
          host := u.extract_host, port := u.extract_port,
          path := u.extract_path, searchpart := u.extract_searchpart },
       Except.ok
         { u with
            host := u.extract_host, port := u.extract_port,
            path := u.extract_path, searchpart := u.extract_searchpart }) := by
  simp [Url.parse, h]

theorem parse_ok_elim {u r : Url} (h : u.parse.2 = Except.ok r) :
    u.is_http = true ∧
      r = { u with
             host := u.extract_host, port := u.extract_port,
             path := u.extract_path, searchpart := u.extract_searchpart } := by
  by_cases hh : u.is_http = true
  · rw [parse_of_http hh] at h
    simp only [Except.ok.injEq] at h
    exact ⟨hh, h.symm⟩
  · rw [parse_of_not_http (Bool.eq_false_iff.mpr hh)] at h
    exact absurd h (by simp)

theorem is_http_congr {x y : Url} (h : x.url = y.url) :
    x.is_http = y.is_http := by
  simp [Url.is_http, h]

theorem extract_host_congr {x y : Url} (h : x.url = y.url) :
    x.extract_host = y.extract_host := by
  simp [extract_host_eq, h]

theorem extract_port_congr {x y : Url} (h : x.url = y.url) :
    x.extract_port = y.extract_port := by
  simp [extract_port_eq, h]

theorem extract_path_congr {x y : Url} (h : x.url = y.url) :
    x.extract_path = y.extract_path := by
  simp [extract_path_eq, h]

theorem extract_searchpart_congr {x y : Url} (h : x.url = y.url) :
    x.extract_searchpart = y.extract_searchpart := by
  simp [extract_searchpart_eq, h]

/-! The checked variants agree with the total extraction methods: no
indexing or slicing in the Rust code can go out of bounds. -/

theorem splitN2_ne_nil (c : Char) (s : List Char) : splitN2 c s ≠ [] := by
  rw [splitN2_eq]
  by_cases h : c ∈ s <;> simp [h]

theorem extract_host?_eq (u : Url) :
    u.extract_host? = some u.extract_host := by
  simp only [Url.extract_host?, Url.extract_host]
  cases hsp : splitChar '/' (trimStartHttp u.url) with
  | nil => exact absurd hsp (splitChar_ne_nil _ _)
  | cons seg rest =>
    cases hf : findChar ':' seg with
    | none => simp [hf]
    | some i =>
      obtain ⟨h1, _, _⟩ := findChar_some ':' seg i hf
      simp [hf, Nat.le_of_lt h1]

theorem extract_port?_eq (u : Url) :
    u.extract_port? = some u.extract_port := by
  simp only [Url.extract_port?, Url.extract_port]
  cases hsp : splitN2 '/' (trimStartHttp u.url) with
  | nil => exact absurd hsp (splitN2_ne_nil _ _)
  | cons seg rest =>
    cases hf : findChar ':' seg with
    | none => simp [hf]
    | some i =>
      obtain ⟨h1, _, _⟩ := findChar_some ':' seg i hf
      simp [hf, Nat.succ_le_of_lt h1]

theorem extract_path?_eq (u : Url) :
    u.extract_path? = some u.extract_path := by
  simp only [Url.extract_path?, Url.extract_path, splitN2_eq]
  by_cases hb : '/' ∈ trimStartHttp u.url
  · by_cases hq :
        '?' ∈ ((trimStartHttp u.url).dropWhile (· != '/')).tail
    · simp [hb, hq, List.drop_one]
    · simp [hb, hq, List.drop_one]
  · simp [hb]

theorem extract_searchpart?_eq (u : Url) :
    u.extract_searchpart? = some u.extract_searchpart := by
  simp only [Url.extract_searchpart?, Url.extract_searchpart, splitN2_eq]
  by_cases hb : '/' ∈ trimStartHttp u.url
  · by_cases hq :
        '?' ∈ ((trimStartHttp u.url).dropWhile (· != '/')).tail
    · simp [hb, hq, List.drop_one]
    · simp [hb, hq, List.drop_one]
  · simp [hb]

theorem parse?_eq (u : Url) : u.parse? = some u.parse := by
  by_cases hh : u.is_http = true
  · simp [Url.parse?, Url.parse, hh, extract_host?_eq, extract_port?_eq,
      extract_path?_eq, extract_searchpart?_eq]
  · have hf : u.is_http = false := Bool.eq_false_iff.mpr hh
    simp [Url.parse?, Url.parse, hf]

theorem hostSpec_ne_nil (c : Char) (t : List Char) (h1 : c ≠ '/')
    (h2 : c ≠ ':') : hostSpec (c :: t) ≠ [] := by
  have hseg : (c :: t).takeWhile (· != '/')
      = c :: t.takeWhile (· != '/') := by
    simp [List.takeWhile_cons, h1]
  simp only [hostSpec]
  rw [hseg]
  by_cases hm : ':' ∈ c :: t.takeWhile (· != '/')
  · simp [hm, List.takeWhile_cons, h2]
  · simp [hm]

/-! The claims. -/

/-- C1: for every input string, `parse` succeeds iff the raw string contains
the literal substring `"http://"` anywhere (a substring test, not a
scheme-prefix test); when it does not, `parse` fails with the error carrying
the message `"Only HTTP scheme is supported"`. -/
theorem claim_C1 (s : List Char) :
    ((∃ r, (Url.new s).parse.2 = Except.ok r)
      ↔ strContains s httpScheme = true)
    ∧ (strContains s httpScheme = false →
        (Url.new s).parse.2 = Except.error onlyHttpMsg) := by
  have hh : (Url.new s).is_http = strContains s httpScheme := rfl
  constructor
  · constructor
    · rintro ⟨r, hr⟩
      rw [← hh]
      exact (parse_ok_elim hr).1
    · intro hc
      exact ⟨_, congrArg Prod.snd (parse_of_http (hh.trans hc))⟩
  · intro hc
    rw [parse_of_not_http (hh.trans hc)]

/-- C1 witness: `"example.com"` and `"https://example.com"` fail with the
unsupported-scheme message, while `"xhttp://host"` is accepted. -/
theorem claim_C1_witness :
    (Url.new (str "example.com")).parse.2 = Except.error onlyHttpMsg
    ∧ (Url.new (str "https://example.com")).parse.2
        = Except.error onlyHttpMsg
    ∧ ∃ r, (Url.new (str "xhttp://host")).parse.2 = Except.ok r :=
  ⟨(claim_C1 (str "example.com")).2 (by decide),
   (claim_C1 (str "https://example.com")).2 (by decide),
   (claim_C1 (str "xhttp://host")).1.mpr (by decide)⟩

/-- C2 as stated is false: `trim_start_matches` removes the leading
`"http://"` repeatedly, not exactly once, so for the input
`"http://http://example.com"` extraction operates on `"example.com"`
(host `"example.com"`), not on `"http://example.com"` (whose host would be
`"http"`). -/
theorem claim_C2_counterexample :
    stripOnceSpec (str "http://http://example.com")
        = str "http://example.com"
    ∧ trimStartHttp (str "http://http://example.com") = str "example.com"
    ∧ trimStartHttp (str "http://http://example.com")
        ≠ stripOnceSpec (str "http://http://example.com")
    ∧ (Url.new (str "http://http://example.com")).extract_host
        = str "example.com"
    ∧ hostSpec (stripOnceSpec (str "http://http://example.com"))
        = str "http" := by
  decide

/-- C2 (amended): before extraction, every leading literal `"http://"`
prefix is removed repeatedly until the string no longer starts with
`"http://"`; if `"http://"` occurs but not as a true prefix, stripping is a
no-op and extraction operates on the unmodified string.  In particular, for
`"http://http://example.com"` extraction operates on `"example.com"`. -/
theorem claim_C2 (s : List Char) :
    (httpScheme.isPrefixOf s = false → trimStartHttp s = s)
    ∧ (httpScheme.isPrefixOf s = true →
        trimStartHttp s = trimStartHttp (s.drop 7))
    ∧ httpScheme.isPrefixOf (trimStartHttp s) = false
    ∧ trimStartHttp (str "http://http://example.com")
        = str "example.com" :=
  ⟨fun h => trimStartHttp_of_not h, fun h => trimStartHttp_of_http_start h,
   trimStartHttp_not_http_started s, rfl⟩

/-- C2 witness: a non-prefix occurrence is not stripped, and a true prefix
is stripped and stripping recurses. -/
theorem claim_C2_witness :
    trimStartHttp (str "xhttp://host") = str "xhttp://host"
    ∧ trimStartHttp (str "http://h")
        = trimStartHttp ((str "http://h").drop 7) :=
  ⟨(claim_C2 (str "xhttp://host")).1 (by decide),
   (claim_C2 (str "http://h")).2.1 (by decide)⟩

/-- C3: for every input accepted by `parse`, the host field is obtained from
the stripped string by taking everything before the first `'/'` and, within
that leading segment, everything before the first `':'` when `':'` is
present, else the whole segment. -/
theorem claim_C3 (s : List Char) (r : Url)
    (h : (Url.new s).parse.2 = Except.ok r) :
    r.host = hostSpec (trimStartHttp s) := by
  obtain ⟨_, hr⟩ := parse_ok_elim h
  subst hr
  simp [extract_host_eq, Url.new]

/-- C3 witness at `"http://example.com:8888/index.html"`. -/
theorem claim_C3_witness :
    (Url.mk (str "http://example.com:8888/index.html") (str "example.com")
        (str "8888") (str "index.html") []).host
      = hostSpec (trimStartHttp (str "http://example.com:8888/index.html")) :=
  claim_C3 _ _ rfl

/-- C4: for every input accepted by `parse`, the port field is the substring
after the first `':'` of the leading segment before the first `'/'` when a
`':'` is present there, and `"80"` otherwise. -/
theorem claim_C4 (s : List Char) (r : Url)
    (h : (Url.new s).parse.2 = Except.ok r) :
    r.port = portSpec (trimStartHttp s) := by
  obtain ⟨_, hr⟩ := parse_ok_elim h
  subst hr
  simp [extract_port_eq, Url.new]

/-- C4 witness at `"http://example.com:8888"` (explicit port) and the
defaulting is part of `portSpec` itself. -/
theorem claim_C4_witness :
    (Url.mk (str "http://example.com:8888") (str "example.com") (str "8888")
        [] []).port
      = portSpec (trimStartHttp (str "http://example.com:8888")) :=
  claim_C4 _ _ rfl

/-- C5: for every input accepted by `parse`, path and searchpart come from
the two-part split of the stripped string on the first `'/'`: with no second
part both are empty; otherwise the second part is split on the first `'?'`,
path is what precedes it (the leading `'/'` being consumed) and searchpart
is what follows it (empty when there is no `'?'`). -/
theorem claim_C5 (s : List Char) (r : Url)
    (h : (Url.new s).parse.2 = Except.ok r) :
    r.path = pathSpec (trimStartHttp s)
    ∧ r.searchpart = searchSpec (trimStartHttp s) := by
  obtain ⟨_, hr⟩ := parse_ok_elim h
  subst hr
  exact ⟨by simp [extract_path_eq, Url.new],
    by simp [extract_searchpart_eq, Url.new]⟩

/-- C5 witness at `"http://e.com/a/b?x=1&y=2"`. -/
theorem claim_C5_witness :
    (Url.mk (str "http://e.com/a/b?x=1&y=2") (str "e.com") (str "80")
        (str "a/b") (str "x=1&y=2")).path
      = pathSpec (trimStartHttp (str "http://e.com/a/b?x=1&y=2"))
    ∧ (Url.mk (str "http://e.com/a/b?x=1&y=2") (str "e.com") (str "80")
        (str "a/b") (str "x=1&y=2")).searchpart
      = searchSpec (trimStartHttp (str "http://e.com/a/b?x=1&y=2")) :=
  claim_C5 _ _ rfl

/-- C6 as stated is false: the input `"http://"` is parsed successfully and
the resulting host field is the empty string. -/
theorem claim_C6_counterexample :
    (Url.new (str "http://")).parse.2
      = Except.ok (Url.mk (str "http://") [] (str "80") [] []) := rfl

/-- C6 (amended): before parse (in the shell produced by `new`) host is the
empty string; after a successful parse host may be empty (e.g. for input
`"http://"`), and it is non-empty whenever the stripped string is non-empty
and starts with neither `'/'` nor `':'`. -/
theorem claim_C6 (s : List Char) (r : Url) :
    (Url.new s).host = []
    ∧ ((Url.new s).parse.2 = Except.ok r →
        ∀ c t, trimStartHttp s = c :: t → c ≠ '/' → c ≠ ':' →
          r.host ≠ []) := by
  refine ⟨rfl, fun h c t hct h1 h2 => ?_⟩
  obtain ⟨_, hr⟩ := parse_ok_elim h
  subst hr
  show (Url.new s).extract_host ≠ []
  rw [extract_host_eq]
  have hu : (Url.new s).url = s := rfl
  rw [hu, hct]
  exact hostSpec_ne_nil c t h1 h2

/-- C6 witness at `"http://example.com"`: host is non-empty. -/
theorem claim_C6_witness :
    (Url.mk (str "http://example.com") (str "example.com") (str "80")
        [] []).host ≠ [] :=
  (claim_C6 (str "http://example.com")
      (Url.mk (str "http://example.com") (str "example.com") (str "80")
        [] [])).2
    rfl 'e' (str "xample.com") rfl (by decide) (by decide)

/-- C7: `parse` leaves the raw `url` field of the receiver and of the
returned copy exactly equal to the string passed to `new`; the only fields
it modifies are host, port, path and searchpart. -/
theorem claim_C7 (u : Url) :
    (u.parse.1).url = u.url
    ∧ ∀ r, u.parse.2 = Except.ok r → r.url = u.url := by
  constructor
  · by_cases hh : u.is_http = true
    · rw [parse_of_http hh]
    · rw [parse_of_not_http (Bool.eq_false_iff.mpr hh)]
  · intro r h
    obtain ⟨_, hr⟩ := parse_ok_elim h
    subst hr
    rfl

/-- C7 witness at `"http://a/b"`. -/
theorem claim_C7_witness :
    ((Url.new (str "http://a/b")).parse.1).url
        = (Url.new (str "http://a/b")).url
    ∧ (Url.mk (str "http://a/b") (str "a") (str "80") (str "b") []).url
        = (Url.new (str "http://a/b")).url :=
  ⟨(claim_C7 (Url.new (str "http://a/b"))).1,
   (claim_C7 (Url.new (str "http://a/b"))).2 _ rfl⟩

/-- C8: `parse` is a pure function of the raw string (two receivers with the
same raw string produce identical results), and it is idempotent (parsing an
already-parsed receiver returns it unchanged). -/
theorem claim_C8 :
    (∀ u v : Url, u.url = v.url → u.parse.2 = v.parse.2)
    ∧ ∀ u r : Url, u.parse.2 = Except.ok r → r.parse.2 = Except.ok r := by
  constructor
  · intro u v huv
    obtain ⟨a, b, c, d, e⟩ := u
    obtain ⟨a2, b2, c2, d2, e2⟩ := v
    obtain rfl : a = a2 := huv
    by_cases hh : strContains a httpScheme = true
    · simp [Url.parse, Url.is_http, hh, extract_host_eq, extract_port_eq,
        extract_path_eq, extract_searchpart_eq]
    · simp [Url.parse, Url.is_http, hh]
  · intro u r h
    obtain ⟨hh, hr⟩ := parse_ok_elim h
    have hu : r.url = u.url := by rw [hr]
    have hrh : r.is_http = true := (is_http_congr hu).trans hh
    rw [parse_of_http hrh, extract_host_congr hu, extract_port_congr hu,
      extract_path_congr hu, extract_searchpart_congr hu, hr]

/-- C8 witness: two receivers sharing the raw string `"http://a"` parse
identically, and reparsing a parsed result is the identity. -/
theorem claim_C8_witness :
    (Url.new (str "http://a")).parse.2
        = (Url.mk (str "http://a") (str "zz") (str "1") (str "2")
            (str "3")).parse.2
    ∧ (Url.mk (str "http://a") (str "a") (str "80") [] []).parse.2
        = Except.ok (Url.mk (str "http://a") (str "a") (str "80") [] []) :=
  ⟨claim_C8.1 _ _ rfl, claim_C8.2 (Url.new (str "http://a")) _ rfl⟩

/-- C9: when `parse` fails with the unsupported-scheme error, the receiver
is left exactly as the unparsed shell: all four derived fields still empty
and the raw string untouched. -/
theorem claim_C9 (s e : List Char)
    (h : (Url.new s).parse.2 = Except.error e) :
    (Url.new s).parse.1 = Url.new s := by
  by_cases hh : (Url.new s).is_http = true
  · rw [parse_of_http hh] at h
    exact absurd h (by simp)
  · rw [parse_of_not_http (Bool.eq_false_iff.mpr hh)]

/-- C9 witness at `"example.com"`. -/
theorem claim_C9_witness :
    (Url.new (str "example.com")).parse.1 = Url.new (str "example.com") :=
  claim_C9 (str "example.com") onlyHttpMsg rfl

/-- C10: every extraction method is total — the checked variants, which
return `none` exactly where the Rust indexing or slicing would panic, always
return `some`, agreeing with the total methods — so `parse` never panics on
any input. -/
theorem claim_C10 (u : Url) :
    u.extract_host? = some u.extract_host
    ∧ u.extract_port? = some u.extract_port
    ∧ u.extract_path? = some u.extract_path
    ∧ u.extract_searchpart? = some u.extract_searchpart
    ∧ u.parse? = some u.parse :=
  ⟨extract_host?_eq u, extract_port?_eq u, extract_path?_eq u,
   extract_searchpart?_eq u, parse?_eq u⟩

end StudySaba
